import Mathlib

set_option maxHeartbeats 1000000

/- ===================================================================
   Verification development for the SPFlow repository.

   Shallow embeddings of the parts of the code base relevant to the
   statements proved below.  Machine floats are modelled by rationals
   (exact arithmetic) and log-space real computations by real numbers.
   =================================================================== -/

/- -------------------------------------------------------------------
   Legacy circuit graph: src/spn/structure/graph/node.py

   Node has children and an integer scope list; SumNode additionally
   has a weight list; ProductNode adds nothing; LeafNode has no
   children.
   ------------------------------------------------------------------- -/

/-- Legacy graph nodes. The three concrete classes of node.py:
SumNode (scope, children, weights), ProductNode (scope, children),
LeafNode (scope, no children). -/
inductive GNode where
  | sum : List Int → List GNode → List ℚ → GNode
  | prod : List Int → List GNode → GNode
  | leaf : List Int → GNode

/-- Concrete class tags of legacy nodes. -/
inductive GKind where
  | sumK | prodK | leafK
deriving DecidableEq, Repr

def GNode.kind : GNode → GKind
  | .sum _ _ _ => .sumK
  | .prod _ _ => .prodK
  | .leaf _ => .leafK

def GNode.scope : GNode → List Int
  | .sum s _ _ => s
  | .prod s _ => s
  | .leaf s => s

def GNode.children : GNode → List GNode
  | .sum _ c _ => c
  | .prod _ c => c
  | .leaf _ => []

def GNode.weights : GNode → List ℚ
  | .sum _ _ w => w
  | .prod _ _ => []
  | .leaf _ => []

/-- The approximate weight comparison of SumNode.equals:
math.isclose with rel_tol 1e-5 and abs_tol 0, that is
abs (x - y) <= 1e-5 * max (abs x) (abs y). -/
def isclose (x y : ℚ) : Bool :=
  decide (|x - y| ≤ (1 / 100000) * max |x| |y|)

/-- Truncating pairwise weight comparison: Python all(map(isclose, xs, ys))
stops at the shorter list. -/
def zipAllClose : List ℚ → List ℚ → Bool
  | x :: xs, y :: ys => isclose x y && zipAllClose xs ys
  | _, _ => true

mutual

/-- Node.equals / SumNode.equals of node.py. Python map over two child
lists truncates at the shorter list, so child counts are not compared;
SumNode.equals additionally compares weights pairwise (truncating) and
then explicitly compares the weight counts. -/
def GNode.equals : GNode → GNode → Bool
  | .sum s c w, .sum t d v =>
      (decide (s = t) && equalsZip c d) && zipAllClose w v && decide (w.length = v.length)
  | .prod s c, .prod t d => decide (s = t) && equalsZip c d
  | .leaf s, .leaf t => decide (s = t)
  | _, _ => false

/-- Truncating pairwise recursive equality over child lists,
mirroring all(map(lambda x, y: x.equals(y), self.children, other.children)). -/
def equalsZip : List GNode → List GNode → Bool
  | x :: xs, y :: ys => GNode.equals x y && equalsZip xs ys
  | _, _ => true

end

/-- Truncating child comparison characterized by index-wise comparison up
to the length of the shorter list. -/
theorem equalsZip_iff (xs ys : List GNode) :
    equalsZip xs ys = true ↔
      ∀ i, (h1 : i < xs.length) → (h2 : i < ys.length) →
        GNode.equals (xs.get ⟨i, h1⟩) (ys.get ⟨i, h2⟩) = true := by
  induction xs generalizing ys with
  | nil =>
      cases ys <;> simp [equalsZip]
  | cons x xs ih =>
      cases ys with
      | nil => simp [equalsZip]
      | cons y ys =>
          simp only [equalsZip, Bool.and_eq_true, ih]
          constructor
          · rintro ⟨hxy, htail⟩ i h1 h2
            cases i with
            | zero => exact hxy
            | succ j =>
                exact htail j (Nat.lt_of_succ_lt_succ h1) (Nat.lt_of_succ_lt_succ h2)
          · intro h
            refine ⟨h 0 (Nat.succ_pos _) (Nat.succ_pos _), fun j h1 h2 => ?_⟩
            exact h (j + 1) (Nat.succ_lt_succ h1) (Nat.succ_lt_succ h2)

/-- Truncating weight comparison characterized by index-wise closeness up
to the length of the shorter list. -/
theorem zipAllClose_iff (xs ys : List ℚ) :
    zipAllClose xs ys = true ↔
      ∀ i, (h1 : i < xs.length) → (h2 : i < ys.length) →
        isclose (xs.get ⟨i, h1⟩) (ys.get ⟨i, h2⟩) = true := by
  induction xs generalizing ys with
  | nil =>
      cases ys <;> simp [zipAllClose]
  | cons x xs ih =>
      cases ys with
      | nil => simp [zipAllClose]
      | cons y ys =>
          simp only [zipAllClose, Bool.and_eq_true, ih]
          constructor
          · rintro ⟨hxy, htail⟩ i h1 h2
            cases i with
            | zero => exact hxy
            | succ j =>
                exact htail j (Nat.lt_of_succ_lt_succ h1) (Nat.lt_of_succ_lt_succ h2)
          · intro h
            refine ⟨h 0 (Nat.succ_pos _) (Nat.succ_pos _), fun j h1 h2 => ?_⟩
            exact h (j + 1) (Nat.succ_lt_succ h1) (Nat.succ_lt_succ h2)

/-- C7 (amended): a.equals b is true iff a and b are of the same concrete
class, have equal scope lists, have corresponding children pairwise
recursively equal up to the length of the shorter child list (child
counts are NOT compared), and, when they are SumNodes, additionally have
equally many weights whose corresponding entries are equal within
relative tolerance 1e-5. -/
theorem C7_equals_characterization (a b : GNode) :
    GNode.equals a b = true ↔
      (a.kind = b.kind ∧ a.scope = b.scope ∧
        (∀ i, (h1 : i < a.children.length) → (h2 : i < b.children.length) →
          GNode.equals (a.children.get ⟨i, h1⟩) (b.children.get ⟨i, h2⟩) = true) ∧
        (a.kind = GKind.sumK →
          (a.weights.length = b.weights.length ∧
            ∀ i, (h1 : i < a.weights.length) → (h2 : i < b.weights.length) →
              isclose (a.weights.get ⟨i, h1⟩) (b.weights.get ⟨i, h2⟩) = true))) := by
  cases a <;> cases b <;>
    simp_all [GNode.equals, GNode.kind, GNode.scope, GNode.children, GNode.weights,
      equalsZip_iff, zipAllClose_iff]
  all_goals tauto

/-- C7 counterexample: two ProductNodes with the same scope whose child
counts differ (one versus two children) are nevertheless reported equal,
because the truncating Python map never compares the second child; this
refutes the claim that equals requires equally many children. -/
theorem C7_counterexample :
    GNode.equals (GNode.prod [0] [GNode.leaf [0]])
        (GNode.prod [0] [GNode.leaf [0], GNode.leaf [1]]) = true ∧
      (GNode.prod [0] [GNode.leaf [0]]).children.length ≠
        (GNode.prod [0] [GNode.leaf [0], GNode.leaf [1]]).children.length := by
  constructor
  · rfl
  · decide

/- -------------------------------------------------------------------
   Legacy BFS traversal helpers: _get_node_counts and _print_node_graph
   of node.py. _get_node_counts pops from, and appends to, the very
   list object passed by the caller; _print_node_graph first copies the
   argument list. Both are modelled by explicit state passing: each
   returned pair carries the final state of the caller-visible list.
   ------------------------------------------------------------------- -/

mutual

/-- Structural equality test on legacy nodes, the shallow analogue of the
object equality used by the Python set operations in the BFS loops. -/
def GNode.beq : GNode → GNode → Bool
  | .sum s c w, .sum t d v => decide (s = t) && beqList c d && decide (w = v)
  | .prod s c, .prod t d => decide (s = t) && beqList c d
  | .leaf s, .leaf t => decide (s = t)
  | _, _ => false

def beqList : List GNode → List GNode → Bool
  | [], [] => true
  | x :: xs, y :: ys => GNode.beq x y && beqList xs ys
  | _, _ => false

end

instance : BEq GNode := ⟨GNode.beq⟩

/-- Model of list(set(kids) - set(rest)): the members of kids that are
not in rest, deduplicated. -/
def pySetDiff : List GNode → List GNode → List GNode
  | [], _ => []
  | k :: ks, rest =>
      if rest.contains k || ks.contains k then pySetDiff ks rest
      else k :: pySetDiff ks rest

theorem pySetDiff_sublist (ks rest : List GNode) : (pySetDiff ks rest).Sublist ks := by
  induction ks with
  | nil => simp [pySetDiff]
  | cons k ks ih =>
      simp only [pySetDiff]
      split
      · exact ih.cons k
      · exact ih.cons₂ k

theorem sum_map_sizeOf_le_of_sublist {l1 l2 : List GNode} (h : l1.Sublist l2) :
    (l1.map sizeOf).sum ≤ (l2.map sizeOf).sum := by
  induction h with
  | slnil => simp
  | cons a h ih =>
      simp only [List.map_cons, List.sum_cons]
      omega
  | cons₂ a h ih =>
      simp only [List.map_cons, List.sum_cons]
      omega

theorem sum_map_sizeOf_lt (l : List GNode) : (l.map sizeOf).sum < sizeOf l := by
  induction l with
  | nil => simp
  | cons a l ih =>
      simp only [List.map_cons, List.sum_cons, List.cons.sizeOf_spec]
      omega

theorem one_le_sizeOf_intList (s : List Int) : 1 ≤ sizeOf s := by
  cases s <;> simp_arith

theorem sizeOf_children_lt (n : GNode) : sizeOf n.children < sizeOf n := by
  cases n with
  | sum s c w =>
      simp only [GNode.children, GNode.sum.sizeOf_spec]
      omega
  | prod s c =>
      simp only [GNode.children, GNode.prod.sizeOf_spec]
      omega
  | leaf s =>
      have h := one_le_sizeOf_intList s
      simp only [GNode.children, GNode.leaf.sizeOf_spec, List.nil.sizeOf_spec]
      omega

/-- Count increment for one visited node, by concrete class. -/
def bumpCounts : (ℕ × ℕ × ℕ) → GNode → (ℕ × ℕ × ℕ)
  | (ns, np, nl), .sum _ _ _ => (ns + 1, np, nl)
  | (ns, np, nl), .prod _ _ => (ns, np + 1, nl)
  | (ns, np, nl), .leaf _ => (ns, np, nl + 1)

/-- The while loop of _get_node_counts: pops the front node, bumps the
class counter, appends the unseen children to the same list, and on
exit returns the counts together with the final (empty) list state. -/
def countLoop : (ℕ × ℕ × ℕ) → List GNode → (ℕ × ℕ × ℕ) × List GNode
  | acc, [] => (acc, [])
  | acc, n :: rest => countLoop (bumpCounts acc n) (rest ++ pySetDiff n.children rest)
termination_by _acc l => (l.map sizeOf).sum
decreasing_by
  simp only [List.map_append, List.sum_append, List.map_cons, List.sum_cons]
  have h1 : ((pySetDiff n.children rest).map sizeOf).sum ≤ ((n.children).map sizeOf).sum :=
    sum_map_sizeOf_le_of_sublist (pySetDiff_sublist _ _)
  have h2 : ((n.children).map sizeOf).sum < sizeOf n.children := sum_map_sizeOf_lt _
  have h3 : sizeOf n.children < sizeOf n := sizeOf_children_lt n
  omega

/-- The _get_node_counts entry point: the loop works in place on the very
list passed by the caller, so the second component is the state of the
caller list when the call returns. -/
def getNodeCounts (root_nodes : List GNode) : (ℕ × ℕ × ℕ) × List GNode :=
  countLoop (0, 0, 0) root_nodes

/-- The while loop of _print_node_graph, returning the BFS print order. -/
def printLoop : List GNode → List GNode
  | [] => []
  | n :: rest => n :: printLoop (rest ++ pySetDiff n.children rest)
termination_by l => (l.map sizeOf).sum
decreasing_by
  simp only [List.map_append, List.sum_append, List.map_cons, List.sum_cons]
  have h1 : ((pySetDiff n.children rest).map sizeOf).sum ≤ ((n.children).map sizeOf).sum :=
    sum_map_sizeOf_le_of_sublist (pySetDiff_sublist _ _)
  have h2 : ((n.children).map sizeOf).sum < sizeOf n.children := sum_map_sizeOf_lt _
  have h3 : sizeOf n.children < sizeOf n := sizeOf_children_lt n
  omega

/-- The _print_node_graph entry point: nodes = list(root_nodes) copies the
argument, so the loop consumes the copy; the second component is the state
of the caller list when the call returns, which is the unchanged argument. -/
def printNodeGraph (root_nodes : List GNode) : List GNode × List GNode :=
  (printLoop root_nodes, root_nodes)

theorem countLoop_snd (acc : ℕ × ℕ × ℕ) (l : List GNode) : (countLoop acc l).2 = [] := by
  induction acc, l using countLoop.induct with
  | case1 => simp [countLoop]
  | case2 acc n rest ih => rw [countLoop]; exact ih

/-- C9: for every non-empty list of legacy root nodes, _get_node_counts
consumes the caller list in place (nodes are popped from, and newly
discovered children appended to, the argument list itself), so the
caller-visible list is empty when the call returns; _print_node_graph
copies the argument list first and leaves the caller list unchanged. -/
theorem C9_get_node_counts_consumes (root_nodes : List GNode) (_h : root_nodes ≠ []) :
    (getNodeCounts root_nodes).2 = [] ∧ (printNodeGraph root_nodes).2 = root_nodes := by
  exact ⟨countLoop_snd (0, 0, 0) root_nodes, rfl⟩

/-- C9 witness at a concrete two-node graph. -/
theorem C9_witness :
    ([GNode.prod [0, 1] [GNode.leaf [0], GNode.leaf [1]]] ≠ ([] : List GNode)) ∧
      ((getNodeCounts [GNode.prod [0, 1] [GNode.leaf [0], GNode.leaf [1]]]).2 = [] ∧
        (printNodeGraph [GNode.prod [0, 1] [GNode.leaf [0], GNode.leaf [1]]]).2 =
          [GNode.prod [0, 1] [GNode.leaf [0], GNode.leaf [1]]]) := by
  refine ⟨by simp, C9_get_node_counts_consumes _ (by simp)⟩

/- -------------------------------------------------------------------
   Legacy histogram leaf: src/spn/leaves/Histograms.py,
   histogram_likelihood. The global Inference.EPSILON constant lives
   outside the shipped sources; it is a positive floor and is carried
   here as the parameter eps.
   ------------------------------------------------------------------- -/

/-- Per-value probability before the clamp: out-of-range values keep the
initial 0 (the loop body is skipped via continue); in-range values look
up densities at j - 1 where j counts the breaks not exceeding x by
linear scan; none models a Python IndexError on that lookup. -/
def histRawProb (breaks densities : List ℚ) (x : ℚ) : Option ℚ :=
  if x < breaks.headD 0 ∨ breaks.getLastD 0 < x then some 0
  else densities.get? ((breaks.takeWhile (fun b => decide (b ≤ x))).length - 1)

/-- Per-value probability after the final clamp
probs[probs < EPSILON] = EPSILON, which is applied to the whole array,
including the entries left at 0 by the out-of-range skip. -/
def histProb (breaks densities : List ℚ) (eps x : ℚ) : Option ℚ :=
  (histRawProb breaks densities x).map (fun p => if p < eps then eps else p)

/-- histogram_likelihood: the returned array holds the natural logs of
the clamped probabilities, one entry per input row. -/
noncomputable def histogram_likelihood (breaks densities : List ℚ) (eps : ℚ) (data : List ℚ) :
    List (Option ℝ) :=
  data.map (fun x => (histProb breaks densities eps x).map (fun p => Real.log (p : ℝ)))

/-- C6 counterexample: with a positive floor (1e-8 here, standing for the
global EPSILON), the value 5, which lies outside [0, 2], receives the
clamped probability EPSILON instead of the claimed probability 0: the
final clamp applies to the whole probs array and is not bypassed for
out-of-range values. -/
theorem C6_counterexample :
    histProb [0, 1, 2] [1/4, 3/4] (1/100000000) 5 = some (1/100000000) ∧
      ((1 : ℚ)/100000000 ≠ 0 ∧ (0 : ℚ) < 1/100000000) := by
  refine ⟨?_, by norm_num, by norm_num⟩
  norm_num [histProb, histRawProb]

/-- C6 (amended): for every positive floor eps, a value outside the
closed interval from the first to the last break is first assigned
probability 0, but the final clamp lifts it to eps (the floor is NOT
bypassed); an in-range value receives the density of its containing bin,
located by linear scan over breaks, clamped below by eps; the returned
array holds the natural logarithms of these probabilities. -/
theorem C6_histogram_clamp (breaks densities : List ℚ) (eps : ℚ) (he : 0 < eps)
    (data : List ℚ) :
    (∀ x : ℚ, (x < breaks.headD 0 ∨ breaks.getLastD 0 < x) →
        histProb breaks densities eps x = some eps) ∧
    (∀ x : ℚ, ¬(x < breaks.headD 0 ∨ breaks.getLastD 0 < x) →
        ∀ j, (hj : j < densities.length) →
          (breaks.takeWhile (fun b => decide (b ≤ x))).length = j + 1 →
          histProb breaks densities eps x = some (max (densities.get ⟨j, hj⟩) eps)) ∧
    (histogram_likelihood breaks densities eps data =
      data.map (fun x => (histProb breaks densities eps x).map (fun p => Real.log (p : ℝ)))) := by
  refine ⟨fun x hx => ?_, fun x hx j hj hscan => ?_, rfl⟩
  · unfold histProb histRawProb
    split
    · simp only [Option.map_some']
      rw [if_pos he]
    · next h => exact absurd hx h
  · unfold histProb histRawProb
    split
    · next h => exact absurd h hx
    · simp only [hscan, Nat.add_sub_cancel, List.get?_eq_get hj, Option.map_some']
      congr 1
      rcases lt_or_le (densities.get ⟨j, hj⟩) eps with h | h
      · rw [if_pos h, max_eq_right h.le]
      · rw [if_neg (not_lt.mpr h), max_eq_left h]

/-- C6 witness: concrete instance of the amended statement, with floor
1/100 and the out-of-range value 3 receiving exactly the floor. -/
theorem C6_witness :
    (0 : ℚ) < 1/100 ∧
      histProb [0, 1, 2] [1/4, 3/4] (1/100) 3 = some (1/100) := by
  refine ⟨by norm_num, ?_⟩
  refine (C6_histogram_clamp [0, 1, 2] [1/4, 3/4] (1/100) (by norm_num) []).1 3 ?_
  right
  simp
  norm_num

/- -------------------------------------------------------------------
   HypergeometricLayer structural marginalization:
   src/spflow/tensorly/structure/general/layers/leaves/parametric/
   hypergeometric.py, lines 319 to 367.
   ------------------------------------------------------------------- -/

/-- Scope value object: ordered query variable indices plus disjoint
evidence indices. -/
structure Scope where
  query : List ℕ
  evidence : List ℕ
deriving DecidableEq, Repr

/-- Univariate Hypergeometric leaf node with population size N, number
of entities of interest M and number of draws n. -/
structure Hypergeometric where
  scope : Scope
  N : ℕ
  M : ℕ
  n : ℕ
deriving DecidableEq, Repr

/-- Modelled from the spec: the node-level marginalize operation for the
univariate Hypergeometric leaf (its source file is not among the shipped
sources). Marginalizing a node over its entire scope returns an absent
result; marginalizing over variables disjoint from its scope returns the
node unchanged. -/
def Hypergeometric.marginalize (node : Hypergeometric) (marg_rvs : List ℕ) :
    Option Hypergeometric :=
  if node.scope.query.any (fun r => decide (r ∈ marg_rvs)) then none else some node

/-- Layer of multiple univariate Hypergeometric leaves. -/
structure HypergeometricLayer where
  nodes : List Hypergeometric
deriving DecidableEq, Repr

/-- The set_params validation run by the layer constructor: all nodes
over the same scope (keyed by the first query variable, as in the
source) must carry identical N, M and n values. -/
def HypergeometricLayer.paramsValid (nodes : List Hypergeometric) : Bool :=
  nodes.all (fun a => nodes.all (fun b =>
    !(a.scope.query.headD 0 == b.scope.query.headD 0) ||
      (a.N == b.N && a.M == b.M && a.n == b.n)))

/-- Layer marginalize: marginalize every node and collect the survivors;
with no survivor return an absent result; with exactly one survivor and
prune return that plain node; otherwise rebuild a fresh layer from the
surviving scopes and parameters, whose constructor re-runs the
set_params validation. The original layer object is never returned. -/
def HypergeometricLayer.marginalize (layer : HypergeometricLayer) (marg_rvs : List ℕ)
    (prune : Bool) : Except String (Option (Hypergeometric ⊕ HypergeometricLayer)) :=
  if (layer.nodes.filterMap (fun nd => nd.marginalize marg_rvs)).length = 0 then .ok none
  else if (layer.nodes.filterMap (fun nd => nd.marginalize marg_rvs)).length = 1 ∧
      prune = true then
    .ok (some (.inl ((layer.nodes.filterMap (fun nd => nd.marginalize marg_rvs)).headD
      ⟨⟨[], []⟩, 1, 1, 1⟩)))
  else if HypergeometricLayer.paramsValid
      (layer.nodes.filterMap (fun nd => nd.marginalize marg_rvs)) = true then
    .ok (some (.inr ⟨layer.nodes.filterMap (fun nd => nd.marginalize marg_rvs)⟩))
  else .error "All values for HypergeometricLayer over the same scope must be identical."

def exC2node : Hypergeometric := ⟨⟨[0], []⟩, 10, 3, 4⟩

def exC2layer : HypergeometricLayer := ⟨[exC2node]⟩

/-- C2 counterexample: marginalizing a one-node HypergeometricLayer over
index 1, disjoint from its scope over variable 0, with prune true (the
default), returns a plain Hypergeometric node and in particular not the
layer module unchanged, refuting the claim that marginalization over
disjoint indices returns the module itself. -/
theorem C2_counterexample :
    HypergeometricLayer.marginalize exC2layer [1] true =
        Except.ok (some (Sum.inl exC2node)) ∧
      ∀ l : HypergeometricLayer,
        HypergeometricLayer.marginalize exC2layer [1] true ≠
          Except.ok (some (Sum.inr l)) := by
  constructor
  · rfl
  · intro l h
    have h0 : HypergeometricLayer.marginalize exC2layer [1] true =
        Except.ok (some (Sum.inl exC2node)) := rfl
    rw [h0] at h
    simp at h

theorem filterMap_eq_self_of_some {α : Type} {l : List α} {f : α → Option α}
    (h : ∀ a ∈ l, f a = some a) : l.filterMap f = l := by
  induction l with
  | nil => simp
  | cons a l ih =>
      simp only [List.filterMap_cons, h a (List.mem_cons_self a l)]
      rw [ih (fun b hb => h b (List.mem_cons_of_mem a hb))]

/-- C2 (amended): for a HypergeometricLayer with validated parameters,
marginalizing over indices disjoint from the scope of every node returns
a freshly built layer that is structurally equal to the original (same
scopes and parameters), not the very same module, unless the layer has a
single node and prune is set, in which case even the disjoint case
collapses to a plain node; marginalizing over indices covering the
entire scope returns an absent result; and whenever exactly one node
survives with prune set, the result is that plain node. -/
theorem C2_marginalize (layer : HypergeometricLayer) (marg_rvs : List ℕ) (prune : Bool)
    (hvalid : HypergeometricLayer.paramsValid layer.nodes = true)
    (hne : layer.nodes ≠ []) :
    ((∀ nd ∈ layer.nodes, ∀ r ∈ nd.scope.query, r ∉ marg_rvs) →
        (2 ≤ layer.nodes.length ∨ prune = false) →
        HypergeometricLayer.marginalize layer marg_rvs prune =
          Except.ok (some (Sum.inr layer))) ∧
    ((∀ nd ∈ layer.nodes, ∃ r ∈ nd.scope.query, r ∈ marg_rvs) →
        HypergeometricLayer.marginalize layer marg_rvs prune = Except.ok none) ∧
    (∀ nd, layer.nodes.filterMap (fun k => k.marginalize marg_rvs) = [nd] →
        prune = true →
        HypergeometricLayer.marginalize layer marg_rvs prune =
          Except.ok (some (Sum.inl nd))) := by
  refine ⟨fun hdisj hbig => ?_, fun hcover => ?_, fun nd hsurv hprune => ?_⟩
  · have hs : layer.nodes.filterMap (fun k => k.marginalize marg_rvs) = layer.nodes := by
      refine filterMap_eq_self_of_some (fun a ha => ?_)
      unfold Hypergeometric.marginalize
      rw [if_neg]
      simp only [List.any_eq_true, decide_eq_true_eq, not_exists, not_and]
      exact fun r hr => (hdisj a ha r hr : r ∉ marg_rvs)
    have hn1 : ¬(layer.nodes.length = 0) := fun h0 => hne (List.length_eq_zero.mp h0)
    have hn2 : ¬(layer.nodes.length = 1 ∧ prune = true) := by
      rintro ⟨h1, h2⟩
      rcases hbig with h3 | h3
      · omega
      · rw [h3] at h2
        exact Bool.false_ne_true h2
    unfold HypergeometricLayer.marginalize
    simp only [hs]
    rw [if_neg hn1, if_neg hn2, if_pos hvalid]
  · have hs : layer.nodes.filterMap (fun k => k.marginalize marg_rvs) = [] := by
      rw [List.filterMap_eq_nil_iff]
      intro a ha
      unfold Hypergeometric.marginalize
      rw [if_pos]
      rcases hcover a ha with ⟨r, hr, hrm⟩
      simp only [List.any_eq_true, decide_eq_true_eq]
      exact ⟨r, hr, hrm⟩
    unfold HypergeometricLayer.marginalize
    simp only [hs]
    rfl
  · unfold HypergeometricLayer.marginalize
    simp only [hsurv]
    rw [if_neg (by simp), if_pos ⟨rfl, hprune⟩]
    rfl

/-- C2 witness: a two-node layer over variables 0 and 1, marginalized
over the disjoint index 5, yields the structurally equal rebuilt layer. -/
theorem C2_witness :
    HypergeometricLayer.paramsValid [⟨⟨[0], []⟩, 10, 3, 4⟩, ⟨⟨[1], []⟩, 6, 2, 3⟩] = true ∧
      ([⟨⟨[0], []⟩, 10, 3, 4⟩, ⟨⟨[1], []⟩, 6, 2, 3⟩] : List Hypergeometric) ≠ [] ∧
      HypergeometricLayer.marginalize ⟨[⟨⟨[0], []⟩, 10, 3, 4⟩, ⟨⟨[1], []⟩, 6, 2, 3⟩]⟩ [5] true =
        Except.ok (some (Sum.inr ⟨[⟨⟨[0], []⟩, 10, 3, 4⟩, ⟨⟨[1], []⟩, 6, 2, 3⟩]⟩)) := by
  refine ⟨by decide, by decide, ?_⟩
  exact (C2_marginalize ⟨[⟨⟨[0], []⟩, 10, 3, 4⟩, ⟨⟨[1], []⟩, 6, 2, 3⟩]⟩ [5] true
    (by decide) (by decide)).1 (by decide) (Or.inl (by decide))

/- -------------------------------------------------------------------
   Geometric maximum likelihood estimation and EM:
   src/spflow/torch/learning/general/nodes/leaves/parametric/
   geometric.py. Missing values (NaN) are modelled as none entries;
   tensors are modelled as rational lists, and the in-place tensor
   updates are modelled by returning the final state of the
   caller-visible storage.
   ------------------------------------------------------------------- -/

/-- The nan_strategy argument: absent, the string ignore, any other
string, or a callable producing a replacement array. -/
inductive NanStrategy where
  | noneS : NanStrategy
  | ignore : NanStrategy
  | otherS : String → NanStrategy
  | callableS : (List (Option ℚ) → List (Option ℚ)) → NanStrategy

/-- The missing-data handling stage of maximum_likelihood_estimation
(geometric.py lines 99 to 127): the all-NaN check comes first and fires
for every strategy; with no strategy any NaN is an error; ignore drops
the NaN rows together with their weights; any other string is an error;
a callable is applied to the scope data (weights untouched). -/
def geometricNanHandling (scope_data : List (Option ℚ)) (weights : List ℚ)
    (nan_strategy : NanStrategy) : Except String (List (Option ℚ) × List ℚ) :=
  if scope_data.all (fun v => v.isNone) then
    .error "Cannot compute maximum-likelihood estimation on nan-only data."
  else
    match nan_strategy with
    | .noneS =>
        if scope_data.any (fun v => v.isNone) then
          .error "Maximum-likelihood estimation cannot be performed on missing data by default."
        else .ok (scope_data, weights)
    | .ignore =>
        .ok (((scope_data.zip weights).filter (fun p => p.1.isSome)).map Prod.fst,
          ((scope_data.zip weights).filter (fun p => p.1.isSome)).map Prod.snd)
    | .otherS _ =>
        .error "Unknown strategy for handling missing (NaN) values for Geometric."
    | .callableS f => .ok (f scope_data, weights)

/-- The estimation stage of maximum_likelihood_estimation (geometric.py
lines 129 to 151), after support checking and missing-data handling.
The weights are divided in place by weights.sum / n so they sum to the
number of retained rows; the first component is the stored success
probability, the second the final state of the caller weights tensor. -/
def geometricMLE (scope_data : List ℚ) (weights : List ℚ) (bias_correction : Bool) :
    ℚ × List ℚ :=
  let wNorm := weights.map (fun wi => wi / (weights.sum / (scope_data.length : ℚ)))
  let nTotal := if bias_correction then wNorm.sum - 1 else wNorm.sum
  let nTrials := (List.zipWith (fun wi xi => wi * xi) wNorm scope_data).sum
  let pEst0 := if nTrials = 0 then (1 : ℚ) / 100000000 else nTotal / nTrials
  let pEst :=
    if |pEst0 - 0| ≤ 1 / 100000000 then (1 : ℚ) / 100000000
    else if |pEst0 - 1| ≤ 1 / 100000000 + 1 / 100000 then 1 - 1 / 100000000
    else pEst0
  (pEst, wNorm)

/-- The em step (geometric.py lines 178 to 196): the cached gradient is
divided in place by its sum, then passed (as a view on the same storage)
as the weights of maximum_likelihood_estimation with bias_correction
false, which normalizes it in place again; the second component is the
final state of the cached gradient tensor. -/
def geometricEM (scope_data : List ℚ) (cached_grad : List ℚ) : ℚ × List ℚ :=
  geometricMLE scope_data (cached_grad.map (fun gi => gi / cached_grad.sum)) false

theorem sum_map_div (l : List ℚ) (c : ℚ) :
    (l.map (fun x => x / c)).sum = l.sum / c := by
  induction l with
  | nil => simp
  | cons a l ih => simp [ih, add_div]

theorem sum_zipWith_map_div (w x : List ℚ) (c : ℚ) :
    (List.zipWith (fun wi xi => wi * xi) (w.map (fun wi => wi / c)) x).sum =
      (List.zipWith (fun wi xi => wi * xi) w x).sum / c := by
  induction w generalizing x with
  | nil => simp
  | cons a w ih =>
      cases x with
      | nil => simp
      | cons b x =>
          simp only [List.map_cons, List.zipWith_cons_cons, List.sum_cons, ih, add_div]
          rw [div_mul_eq_mul_div]

/-- C3: after normalization the weights sum to the number of retained
rows n, and the stored success probability is N divided by the weighted
trial total (with N = n, or n - 1 under bias correction), with the
1e-8 floor when the weighted trial total is zero and the final clamp
away from 0 and 1 by 1e-8 (with the torch.isclose tolerances). -/
theorem C3_geometric_mle (x w : List ℚ) (bias_correction : Bool)
    (hn : 0 < x.length) (hws : 0 < w.sum) :
    (geometricMLE x w bias_correction).2.sum = (x.length : ℚ) ∧
    (geometricMLE x w bias_correction).1 =
      (let n : ℚ := x.length
       let N : ℚ := if bias_correction then n - 1 else n
       let S := (List.zipWith (fun wi xi => wi * xi) w x).sum
       let p := if S = 0 then (1 : ℚ) / 100000000 else N / (n / w.sum * S)
       if |p - 0| ≤ 1 / 100000000 then (1 : ℚ) / 100000000
       else if |p - 1| ≤ 1 / 100000000 + 1 / 100000 then 1 - 1 / 100000000
       else p) := by
  have hn' : (0:ℚ) < (x.length : ℚ) := by exact_mod_cast hn
  constructor
  · simp only [geometricMLE]
    rw [sum_map_div]
    field_simp
  · have hiff : ((List.zipWith (fun wi xi => wi * xi) w x).sum / (w.sum / (x.length : ℚ)) = 0)
        ↔ ((List.zipWith (fun wi xi => wi * xi) w x).sum = 0) := by
      rw [div_eq_zero_iff]
      constructor
      · rintro (h | h)
        · exact h
        · exact absurd h (div_ne_zero (ne_of_gt hws) (ne_of_gt hn'))
      · exact fun h => Or.inl h
    simp only [geometricMLE]
    rw [sum_map_div, sum_zipWith_map_div]
    rw [show w.sum / (w.sum / (x.length:ℚ)) = (x.length:ℚ) from by field_simp]
    simp only [hiff]
    rw [show (List.zipWith (fun wi xi => wi * xi) w x).sum / (w.sum / (x.length:ℚ)) =
      (x.length:ℚ) / w.sum * (List.zipWith (fun wi xi => wi * xi) w x).sum from by
        rw [div_div_eq_mul_div]
        ring]

/-- C3 witness: two rows of data with unit weights and no bias
correction give success probability 2 / 5. -/
theorem C3_witness :
    0 < ([2, 3] : List ℚ).length ∧ 0 < ([1, 1] : List ℚ).sum ∧
      (geometricMLE [2, 3] [1, 1] false).1 = 2 / 5 := by
  refine ⟨by norm_num, by norm_num, ?_⟩
  rw [(C3_geometric_mle [2, 3] [1, 1] false (by norm_num) (by norm_num)).2]
  norm_num [abs_le]

theorem zip_filter_fst (d : List (Option ℚ)) (w : List ℚ) (hlen : w.length = d.length) :
    ((d.zip w).filter (fun p => p.1.isSome)).map Prod.fst =
      d.filter (fun v => v.isSome) := by
  induction d generalizing w with
  | nil => simp
  | cons a d ih =>
      cases w with
      | nil => simp at hlen
      | cons b w =>
          simp only [List.length_cons, Nat.succ.injEq] at hlen
          cases ha : a.isSome with
          | true => simp [List.filter_cons, ha, ih w hlen]
          | false => simp [List.filter_cons, ha, ih w hlen]

/-- C4: with nan_strategy absent any missing value is an error; with
ignore the rows with a missing scope value are dropped together with
their weights; any other string is an error; a callable is applied to
the scope data to produce the replacement array; and an entirely missing
scope column is an error regardless of the supplied strategy. -/
theorem C4_nan_strategy (d : List (Option ℚ)) (w : List ℚ) (s : String)
    (f : List (Option ℚ) → List (Option ℚ)) (hlen : w.length = d.length) :
    (d.any (fun v => v.isNone) = true →
        (geometricNanHandling d w NanStrategy.noneS).isOk = false) ∧
    (¬(d.all (fun v => v.isNone) = true) →
        geometricNanHandling d w NanStrategy.ignore =
          Except.ok (d.filter (fun v => v.isSome),
            ((d.zip w).filter (fun p => p.1.isSome)).map Prod.snd)) ∧
    ((geometricNanHandling d w (NanStrategy.otherS s)).isOk = false) ∧
    (¬(d.all (fun v => v.isNone) = true) →
        geometricNanHandling d w (NanStrategy.callableS f) = Except.ok (f d, w)) ∧
    (d.all (fun v => v.isNone) = true →
        ∀ strat : NanStrategy, (geometricNanHandling d w strat).isOk = false) := by
  refine ⟨fun hany => ?_, fun hall => ?_, ?_, fun hall => ?_, fun hall strat => ?_⟩
  · unfold geometricNanHandling
    split
    · rfl
    · simp only [hany, if_true]
      rfl
  · unfold geometricNanHandling
    rw [if_neg hall]
    rw [zip_filter_fst d w hlen]
  · unfold geometricNanHandling
    split
    · rfl
    · rfl
  · unfold geometricNanHandling
    rw [if_neg hall]
  · unfold geometricNanHandling
    rw [if_pos hall]
    rfl

/-- C4 witness: one present and one missing value, concrete weights,
instantiating the ignore case of the statement. -/
theorem C4_witness :
    (([1, 5] : List ℚ).length = ([some 2, none] : List (Option ℚ)).length) ∧
      geometricNanHandling [some 2, none] [1, 5] NanStrategy.ignore =
        Except.ok ([some 2], [1]) := by
  refine ⟨by decide, ?_⟩
  have h := (C4_nan_strategy [some 2, none] [1, 5] "mean" id (by decide)).2.1
    (by decide)
  rw [h]
  rfl

theorem map_eq_self_mem {α : Type} {l : List α} {f : α → α} (h : l.map f = l) :
    ∀ a ∈ l, f a = a := by
  induction l with
  | nil => simp
  | cons a l ih =>
      simp only [List.map_cons, List.cons.injEq] at h
      intro b hb
      rcases List.mem_cons.mp hb with hb | hb
      · rw [hb, h.1]
      · exact ih h.2 b hb

theorem exists_ne_zero_of_sum_pos {l : List ℚ} (h : 0 < l.sum) : ∃ a ∈ l, a ≠ 0 := by
  by_contra hc
  push_neg at hc
  have hz : l.sum = 0 := List.sum_eq_zero (fun a ha => hc a ha)
  rw [hz] at h
  exact lt_irrefl 0 h

/-- C10: with no rows dropped for missing values, the caller weights
tensor is mutated in place by the normalizing division: its final state
is the original scaled by n over its sum, it sums to the row count n,
and it differs from the original whenever the original sum was not
already n; likewise em divides the cached log-likelihood gradient tensor
in place while normalizing expectations, so its final state is the
original gradient scaled by n over its sum and differs from the original
whenever that scale is not one. -/
theorem C10_inplace_normalization (x w g : List ℚ) (b : Bool)
    (hn : 0 < x.length) (hws : 0 < w.sum) (hgs : 0 < g.sum) :
    ((geometricMLE x w b).2 = w.map (fun wi => wi * ((x.length : ℚ) / w.sum)) ∧
      (geometricMLE x w b).2.sum = (x.length : ℚ) ∧
      (w.sum ≠ (x.length : ℚ) → (geometricMLE x w b).2 ≠ w)) ∧
    ((geometricEM x g).2 = g.map (fun gi => gi * ((x.length : ℚ) / g.sum)) ∧
      (g.sum ≠ (x.length : ℚ) → (geometricEM x g).2 ≠ g)) := by
  have hn' : (0:ℚ) < (x.length : ℚ) := by exact_mod_cast hn
  have hmle : ∀ (bb : Bool) (v : List ℚ),
      (geometricMLE x v bb).2 = v.map (fun vi => vi * ((x.length : ℚ) / v.sum)) := by
    intro bb v
    simp only [geometricMLE]
    refine List.map_congr_left (fun a _ => ?_)
    rw [div_div_eq_mul_div, mul_div_assoc]
  have hne : ∀ (v : List ℚ), 0 < v.sum → v.sum ≠ (x.length : ℚ) →
      v.map (fun vi => vi * ((x.length : ℚ) / v.sum)) ≠ v := by
    intro v hv hvs hmap
    obtain ⟨a, ha, ha0⟩ := exists_ne_zero_of_sum_pos hv
    have hfix := map_eq_self_mem hmap a ha
    have hscale : (x.length : ℚ) / v.sum = 1 := by
      have h1 : a * ((x.length : ℚ) / v.sum) = a * 1 := by
        rw [mul_one]
        exact hfix
      exact mul_left_cancel₀ ha0 h1
    rw [div_eq_one_iff_eq (ne_of_gt hv)] at hscale
    exact hvs hscale.symm
  have hemfinal : (geometricEM x g).2 = g.map (fun gi => gi * ((x.length : ℚ) / g.sum)) := by
    unfold geometricEM
    rw [hmle false (g.map (fun gi => gi / g.sum))]
    rw [sum_map_div, List.map_map]
    refine List.map_congr_left (fun a _ => ?_)
    simp only [Function.comp_apply]
    rw [div_self (ne_of_gt hgs), div_one, div_mul_eq_mul_div, mul_div_assoc]
  refine ⟨⟨hmle b w, ?_, fun hwn hmap => hne w hws hwn ((hmle b w) ▸ hmap)⟩,
    hemfinal, fun hgn hmap => hne g hgs hgn (hemfinal ▸ hmap)⟩
  simp only [geometricMLE]
  rw [sum_map_div]
  field_simp

/-- C10 witness: two data rows, caller weights summing to 4 and cached
gradient summing to 1; both are rescaled in place to sum to 2. -/
theorem C10_witness :
    0 < ([2, 3] : List ℚ).length ∧ 0 < ([1, 3] : List ℚ).sum ∧
      0 < ([1/4, 3/4] : List ℚ).sum ∧
      (geometricMLE [2, 3] [1, 3] false).2 = [1/2, 3/2] ∧
      (geometricEM [2, 3] [1/4, 3/4]).2 = [1/2, 3/2] := by
  have h := C10_inplace_normalization [2, 3] [1, 3] [1/4, 3/4] false
    (by norm_num) (by norm_num) (by norm_num)
  refine ⟨by norm_num, by norm_num, by norm_num, ?_, ?_⟩
  · rw [h.1.1]
    norm_num
  · rw [h.2.1]
    norm_num

/- -------------------------------------------------------------------
   PartitionLayer sampling:
   src/spflow/base/sampling/spn/layers/partition_layer.py.
   The recursive sample call on an internal node is recorded as the
   pair (node id, requesting instance ids); the function returns the
   dispatched sub-calls, or the validation error.
   ------------------------------------------------------------------- -/

/-- Sampling context: instance (row) indices paired with, per instance,
the list of requested output ids. -/
structure SamplingContext where
  instance_ids : List ℕ
  output_ids : List (List ℕ)

/-- First-occurrence deduplication of requested output id lists. -/
def uniqueLists : List (List ℕ) → List (List ℕ)
  | [] => []
  | x :: xs => x :: uniqueLists (xs.filter (fun y => decide (y ≠ x)))
termination_by l => l.length
decreasing_by
  simp only [List.length_cons]
  exact Nat.lt_succ_of_le (List.length_filter_le _ _)

/-- Modelled from the spec: unique_outputs_ids with return_indices, for
which the source of SamplingContext is not among the shipped sources.
Requested instances are grouped by their unique requested output id
list; each unique list is paired with the positions of the instances
requesting it. -/
def uniqueOutputsIds (output_ids : List (List ℕ)) : List (List ℕ × List ℕ) :=
  (uniqueLists output_ids).map (fun u =>
    (u, (List.range output_ids.length).filter (fun i => decide (output_ids.getD i [] = u))))

/-- The dispatch loop of sample (partition_layer.py lines 59 to 80): for
each unique output id group, raise unless exactly one output id is
requested, then dispatch one sub-call to that node restricted to the
requesting instances. -/
def sampleGroups (n_out : ℕ) (inst : List ℕ) :
    List (List ℕ × List ℕ) → Except String (List (ℕ × List ℕ))
  | [] => .ok []
  | (node_ids, indices) :: rest =>
      if node_ids.length ≠ 1 ∨ (node_ids.length = 0 ∧ n_out ≠ 1) then
        .error "Too many output ids specified for outputs over same scope."
      else
        (sampleGroups n_out inst rest).map
          (fun calls => (node_ids.headD 0, indices.map (fun i => inst.getD i 0)) :: calls)

/-- sample on a PartitionLayer: group the sampling context by unique
requested output ids and dispatch the per-group sub-calls. -/
def partition_layer_sample (n_out : ℕ) (ctx : SamplingContext) :
    Except String (List (ℕ × List ℕ)) :=
  sampleGroups n_out ctx.instance_ids (uniqueOutputsIds ctx.output_ids)

theorem mem_uniqueLists (a : List ℕ) (l : List (List ℕ)) :
    a ∈ uniqueLists l ↔ a ∈ l := by
  induction l using uniqueLists.induct with
  | case1 => simp [uniqueLists]
  | case2 x xs ih =>
      rw [uniqueLists]
      simp only [List.mem_cons, ih, List.mem_filter, decide_eq_true_eq]
      constructor
      · rintro (h | ⟨h, _⟩)
        · exact Or.inl h
        · exact Or.inr h
      · rintro (h | h)
        · exact Or.inl h
        · by_cases hax : a = x
          · exact Or.inl hax
          · exact Or.inr ⟨h, hax⟩

theorem sampleGroups_error (n_out : ℕ) (inst : List ℕ) (groups : List (List ℕ × List ℕ))
    (h : ∃ p ∈ groups, p.1.length ≠ 1) :
    (sampleGroups n_out inst groups).isOk = false := by
  induction groups with
  | nil => simp at h
  | cons g rest ih =>
      obtain ⟨p, hp, hplen⟩ := h
      rcases g with ⟨node_ids, indices⟩
      rw [sampleGroups]
      by_cases hc : node_ids.length ≠ 1 ∨ (node_ids.length = 0 ∧ n_out ≠ 1)
      · rw [if_pos hc]
        rfl
      · rw [if_neg hc]
        push_neg at hc
        rcases List.mem_cons.mp hp with hp1 | hp1
        · exact absurd (show p.1.length = 1 by rw [hp1]; exact hc.1) hplen
        · have herr := ih ⟨p, hp1, hplen⟩
          cases hrec : sampleGroups n_out inst rest with
          | ok calls =>
              rw [hrec] at herr
              simp [Except.isOk, Except.toBool] at herr
          | error e => rfl

theorem sampleGroups_ok (n_out : ℕ) (inst : List ℕ) (groups : List (List ℕ × List ℕ))
    (h : ∀ p ∈ groups, p.1.length = 1) :
    sampleGroups n_out inst groups =
      .ok (groups.map (fun p => (p.1.headD 0, p.2.map (fun i => inst.getD i 0)))) := by
  induction groups with
  | nil => rfl
  | cons g rest ih =>
      rcases g with ⟨node_ids, indices⟩
      have h1 : node_ids.length = 1 := h _ (List.mem_cons_self _ _)
      rw [sampleGroups, if_neg (by omega : ¬(node_ids.length ≠ 1 ∨ (node_ids.length = 0 ∧ n_out ≠ 1)))]
      rw [ih (fun p hp => h p (List.mem_cons_of_mem _ hp))]
      rfl

/-- C5: sample on a PartitionLayer (and likewise HadamardLayer) raises a
validation error whenever some instance requests more than one distinct
output id over the shared scope, and likewise when an instance requests
zero output ids while the layer has more than one output; when every
instance requests exactly one output id, sampling dispatches one
sub-call per unique requested output id to the corresponding internal
node, restricted to the requesting instances. -/
theorem C5_partition_sampling (n_out : ℕ) (ctx : SamplingContext) :
    ((∃ l ∈ ctx.output_ids, 2 ≤ l.dedup.length) →
        (partition_layer_sample n_out ctx).isOk = false) ∧
    (([] ∈ ctx.output_ids ∧ 1 < n_out) →
        (partition_layer_sample n_out ctx).isOk = false) ∧
    ((∀ l ∈ ctx.output_ids, l.length = 1) →
        partition_layer_sample n_out ctx =
          .ok ((uniqueOutputsIds ctx.output_ids).map
            (fun p => (p.1.headD 0, p.2.map (fun i => ctx.instance_ids.getD i 0))))) := by
  refine ⟨?_, ?_, fun hall => ?_⟩
  · rintro ⟨l, hl, hdl⟩
    refine sampleGroups_error n_out ctx.instance_ids _ ?_
    refine ⟨(l, (List.range ctx.output_ids.length).filter
      (fun i => decide (ctx.output_ids.getD i [] = l))), ?_, ?_⟩
    · exact List.mem_map_of_mem _ ((mem_uniqueLists l ctx.output_ids).mpr hl)
    · show l.length ≠ 1
      have hsub : l.dedup.length ≤ l.length := (List.dedup_sublist l).length_le
      omega
  · rintro ⟨hl, _⟩
    refine sampleGroups_error n_out ctx.instance_ids _ ?_
    refine ⟨([], (List.range ctx.output_ids.length).filter
      (fun i => decide (ctx.output_ids.getD i [] = []))), ?_, ?_⟩
    · exact List.mem_map_of_mem _ ((mem_uniqueLists [] ctx.output_ids).mpr hl)
    · show ([] : List ℕ).length ≠ 1
      simp
  · refine sampleGroups_ok n_out ctx.instance_ids _ (fun p hp => ?_)
    obtain ⟨u, hu, rfl⟩ := List.mem_map.mp hp
    exact hall u ((mem_uniqueLists u ctx.output_ids).mp hu)

/-- C5 witness: one instance requesting the two distinct outputs 0 and 1
is rejected; two instances each requesting exactly one output id yield
one dispatched sub-call per unique output id. -/
theorem C5_witness :
    ((∃ l ∈ ([[0, 1]] : List (List ℕ)), 2 ≤ l.dedup.length) ∧
        (partition_layer_sample 2 ⟨[0], [[0, 1]]⟩).isOk = false) ∧
      ((∀ l ∈ ([[1], [0]] : List (List ℕ)), l.length = 1) ∧
        partition_layer_sample 3 ⟨[5, 7], [[1], [0]]⟩ =
          .ok [(1, [5]), (0, [7])]) := by
  constructor
  · exact ⟨by decide, (C5_partition_sampling 2 ⟨[0], [[0, 1]]⟩).1 (by decide)⟩
  · refine ⟨by decide, ?_⟩
    rw [(C5_partition_sampling 3 ⟨[5, 7], [[1], [0]]⟩).2.2 (by decide)]
    simp [uniqueOutputsIds, uniqueLists, List.filter]

/- -------------------------------------------------------------------
   SumLayer versus nested SumNode log-likelihoods (torch backend).
   Modelled from the spec (section 4.6): the torch inference sources of
   SPNSumNode and SPNSumLayer are not among the shipped sources; sum
   inference is the log-sum-exp of log weight plus child log-likelihood
   across children, the layer computing one output per weight row.
   ------------------------------------------------------------------- -/

/-- Log-sum-exp, the log-space mixture combination. -/
noncomputable def logsumexp (xs : List ℝ) : ℝ := Real.log ((xs.map Real.exp).sum)

/-- Modelled from the spec: SumNode log-likelihood for one data row,
given the log-likelihoods of its children. -/
noncomputable def sum_node_log_likelihood (weights : List ℝ) (child_ll : List ℝ) : ℝ :=
  logsumexp (List.zipWith (fun w c => Real.log w + c) weights child_ll)

/-- Modelled from the spec: SumLayer log-likelihood for one data row,
one output per weight matrix row over the shared children. -/
noncomputable def sum_layer_log_likelihood (weight_rows : List (List ℝ))
    (child_ll : List ℝ) : List ℝ :=
  weight_rows.map (fun row => logsumexp (List.zipWith (fun w c => Real.log w + c) row child_ll))

/-- Modelled from the spec: Gaussian leaf log-density. -/
noncomputable def gaussian_log_likelihood (mean std x : ℝ) : ℝ :=
  Real.log (Real.exp (-((x - mean) ^ 2) / (2 * std ^ 2)) / (std * Real.sqrt (2 * Real.pi)))

/-- C1: a SumLayer over shared children produces, output for output, the
log-likelihoods of the individual SumNodes over the same children and
weight rows; wrapping either in an outer SumNode gives identical
results; in particular the 3-component layer with weight rows
[0.8,0.1,0.1], [0.2,0.3,0.5], [0.2,0.7,0.1] over three shared standard
Gaussian leaves, wrapped in an outer sum with weights [0.3,0.4,0.3],
matches the nested SumNode construction on the rows 1.0, 0.0, 0.25. -/
theorem C1_sum_layer_node_equivalence :
    (∀ (weight_rows : List (List ℝ)) (child_ll : List ℝ) (j : ℕ)
        (h2 : j < (sum_layer_log_likelihood weight_rows child_ll).length),
        (sum_layer_log_likelihood weight_rows child_ll).get ⟨j, h2⟩ =
          sum_node_log_likelihood
            (weight_rows.get ⟨j, by
              have := h2
              simpa [sum_layer_log_likelihood] using this⟩) child_ll) ∧
    (∀ (outer : List ℝ) (weight_rows : List (List ℝ)) (child_ll : List ℝ),
        sum_node_log_likelihood outer (sum_layer_log_likelihood weight_rows child_ll) =
          sum_node_log_likelihood outer
            (weight_rows.map (fun row => sum_node_log_likelihood row child_ll))) ∧
    (∀ x ∈ ([1, 0, 0.25] : List ℝ),
        sum_node_log_likelihood [0.3, 0.4, 0.3]
            (sum_layer_log_likelihood [[0.8, 0.1, 0.1], [0.2, 0.3, 0.5], [0.2, 0.7, 0.1]]
              (List.replicate 3 (gaussian_log_likelihood 0 1 x))) =
          sum_node_log_likelihood [0.3, 0.4, 0.3]
            ([[0.8, 0.1, 0.1], [0.2, 0.3, 0.5], [0.2, 0.7, 0.1]].map
              (fun row => sum_node_log_likelihood row
                (List.replicate 3 (gaussian_log_likelihood 0 1 x))))) := by
  refine ⟨fun weight_rows child_ll j h2 => ?_, fun outer weight_rows child_ll => rfl,
    fun x _ => rfl⟩
  simp [sum_layer_log_likelihood, sum_node_log_likelihood]

/- -------------------------------------------------------------------
   Structure learning entry point learn_spn. Modelled from the spec
   (section 4.10) and the shipped test test_learn_spn_invalid_arguments:
   the learn_spn source itself is not among the shipped sources. The
   external k-means and RDC routines are external dependencies and are
   passed as function parameters; data is carried as its shape (row
   count and the feature index list of the current slice).
   ------------------------------------------------------------------- -/

/-- Circuit modules produced by structure learning. -/
inductive SpnModule where
  | leafM : ℕ → SpnModule
  | prodM : List SpnModule → SpnModule
  | sumM : List SpnModule → List ℚ → SpnModule

/-- The clustering_method argument: a recognized name, an unrecognized
name, or a caller-supplied callable returning the row cluster sizes. -/
inductive ClusteringMethod where
  | kmeans : ClusteringMethod
  | unknownC : String → ClusteringMethod
  | callableC : (ℕ → List ℕ → List ℕ) → ClusteringMethod

/-- The partitioning_method argument: a recognized name, an unrecognized
name, or a caller-supplied callable returning the feature groups. -/
inductive PartitioningMethod where
  | rdc : PartitioningMethod
  | unknownP : String → PartitioningMethod
  | callableP : (ℕ → List ℕ → List (List ℕ)) → PartitioningMethod

def resolveClustering (kmeans_impl : ℕ → List ℕ → List ℕ) :
    ClusteringMethod → Option (ℕ → List ℕ → List ℕ)
  | .kmeans => some kmeans_impl
  | .unknownC _ => none
  | .callableC f => some f

def resolvePartitioning (rdc_impl : ℕ → List ℕ → List (List ℕ)) :
    PartitioningMethod → Option (ℕ → List ℕ → List (List ℕ))
  | .rdc => some rdc_impl
  | .unknownP _ => none
  | .callableP f => some f

/-- Sequencing of recursive child constructions. -/
def optionMapList {α β : Type} (f : α → Option β) : List α → Option (List β)
  | [] => some []
  | a :: l =>
      match f a, optionMapList f l with
      | some b, some bs => some (b :: bs)
      | _, _ => none

/-- Base construction: a product of one leaf per remaining feature,
with a single remaining feature yielding that leaf directly. -/
def leafOrProd (feats : List ℕ) : SpnModule :=
  match feats with
  | [f] => .leafM f
  | _ => .prodM (feats.map .leafM)

/-- Modelled from the spec: the recursive partition/cluster/fit
procedure of learn_spn on a slice (row count, feature subset). A slice
with few enough features becomes a product of leaves (a single feature
becomes that leaf directly); otherwise the columns are partitioned
first, at least two groups recursing into a product; a single group
with few enough rows stops without introducing a mixture; otherwise the
rows are clustered and the cluster slices recurse into a sum whose
weights are the cluster proportions. The fuel argument bounds the
recursion depth. -/
def learnSpnRec (pf : ℕ → List ℕ → List (List ℕ)) (cf : ℕ → List ℕ → List ℕ)
    (min_instances_slice min_features_slice : ℕ) :
    ℕ → ℕ → List ℕ → Option SpnModule
  | 0, _, _ => none
  | fuel + 1, n_rows, feats =>
      if feats.length ≤ min_features_slice then
        some (leafOrProd feats)
      else if 2 ≤ (pf n_rows feats).length then
        (optionMapList (fun g =>
          learnSpnRec pf cf min_instances_slice min_features_slice fuel n_rows g)
            (pf n_rows feats)).map .prodM
      else if n_rows ≤ min_instances_slice then
        some (.prodM (feats.map .leafM))
      else if (cf n_rows feats).length ≤ 1 then
        learnSpnRec pf cf min_instances_slice min_features_slice fuel n_rows feats
      else
        (optionMapList (fun s =>
          learnSpnRec pf cf min_instances_slice min_features_slice fuel s feats)
            (cf n_rows feats)).map
          (fun ks => .sumM ks ((cf n_rows feats).map (fun s => (s : ℚ) / (n_rows : ℚ))))

/-- Modelled from the spec and the shipped test: learn_spn validation
rejects a scope length not matching the column count, unrecognized
method names, min_instances_slice and min_features_slice values below 2
(the test requires the value 1 to be rejected for both), and a
conditional scope combined with fit_params; when validation passes, the
recursive build runs on the full slice. -/
def learn_spn (kmeans_impl : ℕ → List ℕ → List ℕ)
    (rdc_impl : ℕ → List ℕ → List (List ℕ)) (n_rows n_cols : ℕ)
    (scope_query : List ℕ) (scope_has_evidence : Bool)
    (clustering_method : ClusteringMethod) (partitioning_method : PartitioningMethod)
    (min_instances_slice min_features_slice : ℕ) (fit_params : Bool) :
    Except String SpnModule :=
  if scope_query.length ≠ n_cols then
    .error "Number of query variables does not match number of data columns."
  else
    match resolveClustering kmeans_impl clustering_method,
        resolvePartitioning rdc_impl partitioning_method with
    | none, _ => .error "Unknown clustering method."
    | _, none => .error "Unknown partitioning method."
    | some cf, some pf =>
        if min_instances_slice < 2 then .error "Invalid min_instances_slice."
        else if min_features_slice < 2 then .error "Invalid min_features_slice."
        else if scope_has_evidence && fit_params then
          .error "Conditional scope is incompatible with fit_params."
        else
          match learnSpnRec pf cf min_instances_slice min_features_slice
              (n_rows + scope_query.length + 1) n_rows scope_query with
          | some m => .ok m
          | none => .error "Structure learning did not terminate."

/-- C8 counterexample: with the documented default arguments — kmeans,
rdc, min_instances_slice 200, min_features_slice 1, fit_params true —
and a well-formed non-conditional input whose scope matches its two
columns, learn_spn raises a validation error instead of returning a
circuit root: the shipped test requires min_features_slice 1 to be
rejected. -/
theorem C8_counterexample :
    learn_spn (fun r _ => [r]) (fun _ fs => [fs]) 5 2 [0, 1] false
        ClusteringMethod.kmeans PartitioningMethod.rdc 200 1 true =
      Except.error "Invalid min_features_slice." := by
  rfl

theorem optionMapList_isSome {α β : Type} (f : α → Option β) (l : List α)
    (h : ∀ a ∈ l, (f a).isSome) : (optionMapList f l).isSome := by
  induction l with
  | nil => rfl
  | cons a l ih =>
      have ha := h a (List.mem_cons_self a l)
      have hl := ih (fun b hb => h b (List.mem_cons_of_mem a hb))
      rw [optionMapList]
      cases hfa : f a with
      | none => rw [hfa] at ha; simp at ha
      | some b =>
          cases hrest : optionMapList f l with
          | none => rw [hrest] at hl; simp at hl
          | some bs => rfl

theorem learnSpnRec_isSome (pf : ℕ → List ℕ → List (List ℕ)) (cf : ℕ → List ℕ → List ℕ)
    (min_instances_slice min_features_slice : ℕ)
    (hpart : ∀ r fs, pf r fs = [fs] ∨
      (2 ≤ (pf r fs).length ∧ ∀ g ∈ pf r fs, g ≠ [] ∧ g.length < fs.length))
    (hclust : ∀ r fs, min_instances_slice < r →
      2 ≤ (cf r fs).length ∧ ∀ s ∈ cf r fs, 1 ≤ s ∧ s < r) :
    ∀ fuel n_rows feats, n_rows + feats.length < fuel →
      (learnSpnRec pf cf min_instances_slice min_features_slice fuel n_rows feats).isSome := by
  intro fuel
  induction fuel with
  | zero => intro n_rows feats h; omega
  | succ fuel ih =>
      intro n_rows feats h
      rw [learnSpnRec]
      by_cases h1 : feats.length ≤ min_features_slice
      · rw [if_pos h1]
        rfl
      · rw [if_neg h1]
        rcases hpart n_rows feats with hp | ⟨hp2, hpg⟩
        · rw [hp]
          rw [if_neg (by simp : ¬(2 ≤ ([feats] : List (List ℕ)).length))]
          by_cases h2 : n_rows ≤ min_instances_slice
          · rw [if_pos h2]
            rfl
          · rw [if_neg h2]
            obtain ⟨hc2, hcs⟩ := hclust n_rows feats (by omega)
            rw [if_neg (by omega : ¬((cf n_rows feats).length ≤ 1))]
            rw [Option.isSome_map']
            refine optionMapList_isSome _ _ (fun s hs => ?_)
            obtain ⟨hs1, hs2⟩ := hcs s hs
            exact ih s feats (by omega)
        · rw [if_pos hp2, Option.isSome_map']
          refine optionMapList_isSome _ _ (fun g hg => ?_)
          obtain ⟨_, hglen⟩ := hpg g hg
          exact ih n_rows g (by omega)

/-- C8 (amended): with min_features_slice raised to 2 — the shipped test
test_learn_spn_invalid_arguments requires the documented default of 1 to
be rejected with a validation error — and otherwise the documented
default arguments (kmeans clustering, rdc partitioning,
min_instances_slice 200, fit_params true), learn_spn on any data shape
with a matching non-conditional feature context passes validation and
returns a fully instantiated circuit root, provided the external
partitioning routine returns either no structure or a proper split into
at least two nonempty strictly smaller feature groups, and the external
clustering routine splits any row count above the instance threshold
into at least two nonempty strictly smaller clusters. -/
theorem C8_learn_spn_defaults (kmeans_impl : ℕ → List ℕ → List ℕ)
    (rdc_impl : ℕ → List ℕ → List (List ℕ)) (n_rows : ℕ) (scope_query : List ℕ)
    (hpart : ∀ r fs, rdc_impl r fs = [fs] ∨
      (2 ≤ (rdc_impl r fs).length ∧ ∀ g ∈ rdc_impl r fs, g ≠ [] ∧ g.length < fs.length))
    (hclust : ∀ r fs, 200 < r →
      2 ≤ (kmeans_impl r fs).length ∧ ∀ s ∈ kmeans_impl r fs, 1 ≤ s ∧ s < r) :
    ∃ m, learn_spn kmeans_impl rdc_impl n_rows scope_query.length scope_query false
        ClusteringMethod.kmeans PartitioningMethod.rdc 200 2 true = Except.ok m := by
  have hsome := learnSpnRec_isSome rdc_impl kmeans_impl 200 2 hpart hclust
    (n_rows + scope_query.length + 1) n_rows scope_query (by omega)
  obtain ⟨m, hm⟩ := Option.isSome_iff_exists.mp hsome
  refine ⟨m, ?_⟩
  unfold learn_spn
  rw [if_neg (by omega : ¬(scope_query.length ≠ scope_query.length))]
  simp only [resolveClustering, resolvePartitioning]
  rw [if_neg (by omega : ¬(200 < 2)), if_neg (by omega : ¬(2 < 2))]
  simp only [Bool.false_and, Bool.false_eq_true, if_false]
  rw [hm]

/-- Row clustering stand-in for the witness: one row against the rest. -/
def kmeansHalf (r : ℕ) (_fs : List ℕ) : List ℕ := [1, r - 1]

/-- Column partitioning stand-in for the witness: first feature against
the rest. -/
def rdcSplit (_r : ℕ) (fs : List ℕ) : List (List ℕ) :=
  if fs.length ≤ 1 then [fs] else [fs.take 1, fs.drop 1]

/-- C8 witness: 201 rows and three Gaussian-typed columns with the
amended arguments produce a circuit root. -/
theorem C8_witness :
    ∃ m, learn_spn kmeansHalf rdcSplit 201 ([0, 1, 2] : List ℕ).length [0, 1, 2] false
        ClusteringMethod.kmeans PartitioningMethod.rdc 200 2 true = Except.ok m := by
  refine C8_learn_spn_defaults kmeansHalf rdcSplit 201 [0, 1, 2] ?_ ?_
  · intro r fs
    by_cases h : fs.length ≤ 1
    · left
      simp [rdcSplit, h]
    · right
      rw [rdcSplit, if_neg h]
      refine ⟨by simp, fun g hg => ?_⟩
      rcases List.mem_cons.mp hg with hg1 | hg1
      · subst hg1
        constructor
        · have : (fs.take 1).length = 1 := by
            rw [List.length_take]
            omega
          exact List.ne_nil_of_length_pos (by omega)
        · rw [List.length_take]
          omega
      · rcases List.mem_cons.mp hg1 with hg2 | hg2
        · subst hg2
          constructor
          · refine List.ne_nil_of_length_pos ?_
            rw [List.length_drop]
            omega
          · rw [List.length_drop]
            omega
        · simp at hg2
  · intro r fs hr
    refine ⟨by simp [kmeansHalf], fun s hs => ?_⟩
    rcases List.mem_cons.mp hs with h1 | h1
    · subst h1
      omega
    · rcases List.mem_cons.mp h1 with h2 | h2
      · subst h2
        simp only [kmeansHalf] at *
        omega
      · simp [kmeansHalf] at h2
